import Mathlib

/-!
A shallow embedding of the offline Chinese triple-extraction system
(`jiebaMethod.py`, class `OfflineTripleExtractor`) together with proofs of
its specified properties.

Modelling conventions:
* a token is a `(surface, POS-tag)` pair, as produced by the external
  segmenter/tagger;
* Python `None`-able strings become `Option String`; Python truthiness of a
  string value (`if subject and obj:`) is modelled explicitly: `none` and
  `some ""` are both falsy;
* the floating point confidence constants `0.7, 0.8, 0.85, 0.9` are modelled
  as exact rationals; the code only ever compares confidences by order, and
  the order of these four constants is the same for floats and rationals;
* the external tagger (`pseg.cut`) is a parameter of the functions that need
  it, per the spec's external-collaborator interface.
-/

namespace OfflineTripleExtractor

/-- A token: `(surface, POS tag)`. -/
abbrev Token := String × String

/-- The core-verb lexicon (`self.core_verbs`), in source literal order
(the Python set literal contains two duplicates, harmless for membership). -/
def core_verbs : List String :=
  ["坠毁", "发射", "研制", "部署", "表示", "分析", "指出", "创立",
   "涉及", "进行", "执行", "成功", "取得", "推动", "救起", "逃生",
   "采用", "送入", "构建", "提供", "标志", "接受", "维持", "炫耀",
   "肩负", "执行", "导致", "震惊", "延续", "完善", "计划", "构建",
   "协同", "支撑", "迈上"]

/-- The preposition lexicon (`self.prepositions`). -/
def prepositions : List String :=
  ["在", "于", "到", "从", "向", "为", "跟", "和", "与", "据",
   "根据", "按照", "通过", "沿着"]

/-- The relation-verb lexicon (`self.relation_verbs`). -/
def relation_verbs : List String :=
  ["是", "为", "成为", "属于", "包括", "包含"]

/-- Classifier keyword set: military. -/
def military_keywords : List String :=
  ["军机", "直升机", "战斗机", "航母", "火箭", "卫星", "舰队"]

/-- Classifier keyword set: location. -/
def location_keywords : List String :=
  ["南海", "西昌", "亚太", "中东", "加州", "全球"]

/-- Classifier keyword set: person. -/
def person_keywords : List String :=
  ["张军社", "宋忠平", "专家", "人员"]

/-- Classifier keyword set: organization. -/
def org_keywords : List String :=
  ["海军", "航天", "集团", "中心", "时报"]

/-- Python's substring test `kw in s` on strings, at the character level. -/
def strIn (kw s : String) : Bool :=
  (List.range (s.data.length + 1)).any (fun i => kw.data.isPrefixOf (s.data.drop i))

/-- Python's `s.startswith(pre)`, at the character level (extensionally the
same as `String.startsWith`, but kernel-computable). -/
def py_startswith (s pre : String) : Bool :=
  pre.data.isPrefixOf s.data

/-- `is_entity_word`: the tag test `pos_tag.startswith(('n', 'nr', 'ns', 'nt', 'nz'))`.
(Every alternative begins with `"n"`, so the disjunction is kept verbatim.) -/
def is_entity_word (pos_tag : String) : Bool :=
  py_startswith pos_tag "n" || py_startswith pos_tag "nr" || py_startswith pos_tag "ns" ||
    py_startswith pos_tag "nt" || py_startswith pos_tag "nz"

/-- `classify_entity`: keyword-containment classification, priority order
military, location, person, organization; empty (falsy) entity is UNKNOWN;
no match is ENTITY. -/
def classify_entity (entity : String) : String :=
  if entity = "" then "UNKNOWN"
  else if military_keywords.any (fun kw => strIn kw entity) then "MILITARY"
  else if location_keywords.any (fun kw => strIn kw entity) then "LOCATION"
  else if person_keywords.any (fun kw => strIn kw entity) then "PERSON"
  else if org_keywords.any (fun kw => strIn kw entity) then "ORGANIZATION"
  else "ENTITY"

/-- The confidence literal `0.8` of `rule_svo`, as the exact rational `4/5`
in lowest terms (constructor form keeps every definition kernel-computable;
`conf_svo_eq` below identifies it with the numeral `0.8`). -/
def conf_svo : ℚ := ⟨4, 5, by norm_num, by norm_num⟩

/-- The confidence literal `0.7` of `rule_preposition`, as `7/10`. -/
def conf_prep : ℚ := ⟨7, 10, by norm_num, by norm_num⟩

/-- The confidence literal `0.9` of `rule_apposition`, as `9/10`. -/
def conf_appos : ℚ := ⟨9, 10, by norm_num, by norm_num⟩

/-- The confidence literal `0.85` of `rule_attribution`, as `17/20`. -/
def conf_att : ℚ := ⟨17, 20, by norm_num, by norm_num⟩

/-- The triple record built by `create_triple`. -/
structure Triple where
  subject : String
  relation : String
  object : String
  subject_type : String
  object_type : String
  confidence : ℚ
  rule : String
deriving DecidableEq, Repr

/-- `create_triple(subject, relation, obj, rule, confidence)`. -/
def create_triple (subject relation obj rule : String) (confidence : ℚ) : Triple :=
  { subject := subject
    relation := relation
    object := obj
    subject_type := classify_entity subject
    object_type := classify_entity obj
    confidence := confidence
    rule := rule }

/-- Loop body of `find_entity_before`: the tokens are fed in scan order
(anchor-1 down to 0, i.e. the reversed prefix); an entity-like token is
prepended to the accumulator (`entity_parts.insert(0, word)`); a
non-entity-like token stops the scan once the accumulator is non-empty. -/
def scanEntity : List Token → List String → List String
  | [], acc => acc
  | t :: rest, acc =>
    if is_entity_word t.2 then scanEntity rest (t.1 :: acc)
    else if acc ≠ [] then acc
    else scanEntity rest acc

/-- Loop body of `find_entity_after`: tokens in scan order (anchor+1 upward);
an entity-like token is appended (`entity_parts.append(word)`); a
non-entity-like token stops the scan once the accumulator is non-empty. -/
def scanAfter : List Token → List String → List String
  | [], acc => acc
  | t :: rest, acc =>
    if is_entity_word t.2 then scanAfter rest (acc ++ [t.1])
    else if acc ≠ [] then acc
    else scanAfter rest acc

/-- `find_entity_before(words, start_index)`: scan indices
`start_index-1 … 0`; result is `''.join(entity_parts)` when non-empty,
else `None`. (The Python loop indexes `words[i]` directly; it is only
called with `start_index ≤ len(words)`.) -/
def find_entity_before (words : List Token) (start_index : Nat) : Option String :=
  let parts := scanEntity ((words.take start_index).reverse) []
  if parts = [] then none else some (String.join parts)

/-- `find_entity_after(words, start_index)`: scan indices
`start_index+1 … len-1`. -/
def find_entity_after (words : List Token) (start_index : Nat) : Option String :=
  let parts := scanAfter (words.drop (start_index + 1)) []
  if parts = [] then none else some (String.join parts)

/-- One step of `find_verb_before`'s backward scan: first token (in scan
order) whose tag starts with `"v"` and whose surface is a core verb. -/
def verbScan : List Token → Option String
  | [] => none
  | t :: rest =>
    if py_startswith t.2 "v" ∧ t.1 ∈ core_verbs then some t.1 else verbScan rest

/-- `find_verb_before(words, start_index)`: scan `start_index-1` down to `0`,
first match wins. -/
def find_verb_before (words : List Token) (start_index : Nat) : Option String :=
  verbScan ((words.take start_index).reverse)

/-- `find_word_index(word_list, target_word)`: index of the first occurrence
scanning from `0`, or `-1`. -/
def find_word_index (word_list : List String) (target_word : String) : Int :=
  match word_list.findIdx? (fun w => w = target_word) with
  | some i => (i : Int)
  | none => -1

/-- `rule_svo` body at one token `(word, pos)` of index `i`.  The guard
`if subject and obj:` uses Python truthiness: both spans must be present
and non-empty. -/
def svoStep (ws : List Token) (i : Nat) (word pos : String) : List Triple :=
  if word ∈ core_verbs ∧ py_startswith pos "v" then
    match find_entity_before ws i, find_entity_after ws i with
    | some subject, some obj =>
      if subject ≠ "" ∧ obj ≠ "" then
        [create_triple subject word obj "SVO" conf_svo]
      else []
    | _, _ => []
  else []

/-- `rule_preposition` body at one token `(word, pos)` of index `i`:
find the nearest preceding core verb, the forward span as object, then the
first occurrence of the verb surface in the whole word list, and the
backward span from that index as subject; the relation is
`f"{verb}{prep}"`. -/
def prepStep (ws : List Token) (i : Nat) (word pos : String) : List Triple :=
  if word ∈ prepositions ∧ pos = "p" then
    match find_verb_before ws i, find_entity_after ws i with
    | some verb, some obj =>
      if verb ≠ "" ∧ obj ≠ "" then
        let verb_index := find_word_index (ws.map Prod.fst) verb
        if verb_index ≠ -1 then
          match find_entity_before ws verb_index.toNat with
          | some subject =>
            if subject ≠ "" then
              [create_triple subject (verb ++ word) obj "PREP" conf_prep]
            else []
          | none => []
        else []
      else []
    | _, _ => []
  else []

/-- `rule_apposition` body at one token: relation verbs with tag exactly
`"v"`; the emitted relation is the literal `"是"`. -/
def apposStep (ws : List Token) (i : Nat) (word pos : String) : List Triple :=
  if word ∈ relation_verbs ∧ pos = "v" then
    match find_entity_before ws i, find_entity_after ws i with
    | some subject, some obj =>
      if subject ≠ "" ∧ obj ≠ "" then
        [create_triple subject "是" obj "APPOS" conf_appos]
      else []
    | _, _ => []
  else []

/-- `rule_attribution` body at one token: the particle `"的"` with tag
exactly `"uj"`. -/
def attStep (ws : List Token) (i : Nat) (word pos : String) : List Triple :=
  if word = "的" ∧ pos = "uj" then
    match find_entity_before ws i, find_entity_after ws i with
    | some modifier, some headWord =>
      if modifier ≠ "" ∧ headWord ≠ "" then
        [create_triple modifier "的" headWord "ATT" conf_att]
      else []
    | _, _ => []
  else []

/-- The common `for i, (word, pos) in enumerate(words):` loop shape of the
four rules, accumulating the triples emitted at each index. -/
def ruleLoop (step : List Token → Nat → String → String → List Triple)
    (ws : List Token) : Nat → List Token → List Triple
  | _, [] => []
  | i, t :: rest => step ws i t.1 t.2 ++ ruleLoop step ws (i + 1) rest

/-- `rule_svo(words, …)`. -/
def rule_svo (ws : List Token) : List Triple := ruleLoop svoStep ws 0 ws

/-- `rule_preposition(words, …)` (the Python call passes
`word_list = [w for w, p in words]`, recomputed here from `ws`). -/
def rule_preposition (ws : List Token) : List Triple := ruleLoop prepStep ws 0 ws

/-- `rule_apposition(words, …)`. -/
def rule_apposition (ws : List Token) : List Triple := ruleLoop apposStep ws 0 ws

/-- `rule_attribution(words, …)`. -/
def rule_attribution (ws : List Token) : List Triple := ruleLoop attStep ws 0 ws

/-- `extract_from_sentence`, with the external tagger (`pseg.cut`) passed as
a parameter: the four rules applied in order to the tagged sentence. -/
def extract_from_sentence (tagger : String → List Token) (sentence : String) :
    List Triple :=
  let ws := tagger sentence
  rule_svo ws ++ rule_preposition ws ++ rule_apposition ws ++ rule_attribution ws

/-- Deduplication key: `(triple['subject'], triple['relation'], triple['object'])`. -/
def tripleKey (t : Triple) : String × String × String :=
  (t.subject, t.relation, t.object)

/-- The dedup loop of `post_process`: `seen` is the set of keys already kept
(modelled as a list, membership only), triples are kept in first-occurrence
order. -/
def dedupLoop : List (String × String × String) → List Triple → List Triple
  | _, [] => []
  | seen, t :: rest =>
    if tripleKey t ∈ seen then dedupLoop seen rest
    else t :: dedupLoop (tripleKey t :: seen) rest

/-- The comparison used by the final sort:
`sort(key=lambda x: x['confidence'], reverse=True)`, i.e. `a` may precede
`b` iff `b.confidence ≤ a.confidence`; Python's sort is stable and
`mergeSort` with this total comparison models it exactly. -/
def confLE (a b : Triple) : Bool := decide (b.confidence ≤ a.confidence)

/-- `post_process(triples)`: deduplicate by key keeping first occurrences,
then stable-sort by confidence descending. -/
def post_process (triples : List Triple) : List Triple :=
  (dedupLoop [] triples).mergeSort confLE

/-- Character class kept by the cleaning regex
`[^一-鿥，。！？；：“”《》\s\w]` removal: CJK ideographs `一-龥`. -/
def isCJKChar (c : Char) : Bool :=
  0x4e00 ≤ c.toNat ∧ c.toNat ≤ 0x9fa5

/-- The punctuation allow-list of the cleaning regex. -/
def allowedPunct : List Char :=
  ['，', '。', '！', '？', '；', '：', '“', '”', '《', '》']

/-- Regex `\w` (word character): alphanumeric or underscore; CJK ideographs
(which Python's unicode `\w` also matches) are covered by `isCJKChar` in
`keepChar`. -/
def isWordChar (c : Char) : Bool :=
  c.isAlphanum || c = '_' || isCJKChar c

/-- A character survives `re.sub(r'[^一-龥，。！？；：“”《》\s\w]', '', text)`. -/
def keepChar (c : Char) : Bool :=
  isCJKChar c || allowedPunct.contains c || c.isWhitespace || isWordChar c

/-- The sentence-splitting delimiters of `re.split(r'[。！？；]', …)`. -/
def sentenceEnders : List Char :=
  ['。', '！', '？', '；']

/-- `re.split` on the delimiter class: `n` delimiters yield `n + 1` chunks
(possibly empty). -/
def splitSents : List Char → List Char → List (List Char)
  | [], cur => [cur.reverse]
  | c :: rest, cur =>
    if sentenceEnders.contains c then cur.reverse :: splitSents rest []
    else splitSents rest (c :: cur)

/-- Python `str.strip()`: drop leading and trailing whitespace. -/
def stripChars (l : List Char) : List Char :=
  ((l.dropWhile Char.isWhitespace).reverse.dropWhile Char.isWhitespace).reverse

/-- `preprocess_text(text)`: clean, split into sentences, strip each, keep
those of length at least 4. -/
def preprocess_text (text : String) : List String :=
  let cleaned := text.data.filter keepChar
  let sentences := splitSents cleaned []
  (sentences.map stripChars).filterMap
    (fun s => if 4 ≤ s.length then some (String.mk s) else none)

/-- `extract_triples(text)`, with the external tagger passed as a parameter:
per-sentence triples accumulated in sentence order, then `post_process`. -/
def extract_triples (tagger : String → List Token) (text : String) :
    List Triple :=
  post_process (((preprocess_text text).map (extract_from_sentence tagger)).flatten)

/-- Spec-side description of the backward scan: the tokens
`anchorIndex-1 … 0` in scan order are the reversed prefix; skip (drop) the
non-entity-like tokens, then take the contiguous entity-like run. -/
def backwardRunSpec (ws : List Token) (i : Nat) : List Token :=
  ((ws.take i).reverse.dropWhile (fun t => ! is_entity_word t.2)).takeWhile
    (fun t => is_entity_word t.2)

/-- Spec-side description of the forward scan: tokens `anchorIndex+1 …` in
scan order; skip the non-entity-like tokens, then take the contiguous
entity-like run. -/
def forwardRunSpec (ws : List Token) (i : Nat) : List Token :=
  ((ws.drop (i + 1)).dropWhile (fun t => ! is_entity_word t.2)).takeWhile
    (fun t => is_entity_word t.2)

/-- The trigger test of `find_verb_before`:
`pos.startswith('v') and word in self.core_verbs`. -/
def isCoreVerbTok (t : Token) : Bool :=
  py_startswith t.2 "v" && decide (t.1 ∈ core_verbs)

/-- `conf_svo` is the numeral `0.8`. -/
theorem conf_svo_eq : conf_svo = 0.8 := by
  apply Rat.ext
  · show (4 : Int) = _
    norm_num
  · show (5 : Nat) = _
    norm_num

/-- `conf_prep` is the numeral `0.7`. -/
theorem conf_prep_eq : conf_prep = 0.7 := by
  apply Rat.ext
  · show (7 : Int) = _
    norm_num
  · show (10 : Nat) = _
    norm_num

/-- `conf_appos` is the numeral `0.9`. -/
theorem conf_appos_eq : conf_appos = 0.9 := by
  apply Rat.ext
  · show (9 : Int) = _
    norm_num
  · show (10 : Nat) = _
    norm_num

/-- `conf_att` is the numeral `0.85`. -/
theorem conf_att_eq : conf_att = 0.85 := by
  apply Rat.ext
  · show (17 : Int) = _
    norm_num
  · show (20 : Nat) = _
    norm_num

example : rule_svo [("直升机", "n"), ("坠毁", "v"), ("南海", "ns")] =
    [create_triple "直升机" "坠毁" "南海" "SVO" conf_svo] := by decide

example : find_entity_before [("海军", "n"), ("坠毁", "v")] 1 = some "海军" := by decide

/-! ### Characterization of the entity span finder -/

theorem scanEntity_acc (l : List Token) (acc : List String) (h : acc ≠ []) :
    scanEntity l acc =
      ((l.takeWhile (fun t => is_entity_word t.2)).map Prod.fst).reverse ++ acc := by
  induction l generalizing acc with
  | nil => simp [scanEntity]
  | cons t rest ih =>
    by_cases ht : is_entity_word t.2
    · rw [scanEntity, if_pos ht, ih (t.1 :: acc) (by simp)]
      simp [List.takeWhile_cons, ht]
    · rw [scanEntity, if_neg ht, if_pos h]
      simp [List.takeWhile_cons, ht]

theorem scanEntity_nil (l : List Token) :
    scanEntity l [] =
      (((l.dropWhile (fun t => ! is_entity_word t.2)).takeWhile
          (fun t => is_entity_word t.2)).map Prod.fst).reverse := by
  induction l with
  | nil => simp [scanEntity]
  | cons t rest ih =>
    by_cases ht : is_entity_word t.2
    · rw [scanEntity, if_pos ht, scanEntity_acc _ _ (by simp)]
      simp [List.dropWhile_cons, List.takeWhile_cons, ht]
    · rw [scanEntity, if_neg ht]
      simpa [List.dropWhile_cons, ht] using ih

theorem scanAfter_acc (l : List Token) (acc : List String) (h : acc ≠ []) :
    scanAfter l acc =
      acc ++ (l.takeWhile (fun t => is_entity_word t.2)).map Prod.fst := by
  induction l generalizing acc with
  | nil => simp [scanAfter]
  | cons t rest ih =>
    by_cases ht : is_entity_word t.2
    · rw [scanAfter, if_pos ht, ih (acc ++ [t.1]) (by simp)]
      simp [List.takeWhile_cons, ht]
    · rw [scanAfter, if_neg ht, if_pos h]
      simp [List.takeWhile_cons, ht]

theorem scanAfter_nil (l : List Token) :
    scanAfter l [] =
      ((l.dropWhile (fun t => ! is_entity_word t.2)).takeWhile
          (fun t => is_entity_word t.2)).map Prod.fst := by
  induction l with
  | nil => simp [scanAfter]
  | cons t rest ih =>
    by_cases ht : is_entity_word t.2
    · rw [scanAfter, if_pos ht, scanAfter_acc _ _ (by simp)]
      simp [List.dropWhile_cons, List.takeWhile_cons, ht]
    · rw [scanAfter, if_neg ht]
      simpa [List.dropWhile_cons, ht] using ih

theorem find_entity_before_eq (ws : List Token) (i : Nat) :
    find_entity_before ws i =
      if backwardRunSpec ws i = [] then none
      else some (String.join (((backwardRunSpec ws i).map Prod.fst).reverse)) := by
  rw [find_entity_before, scanEntity_nil]
  by_cases h : backwardRunSpec ws i = [] <;>
    simp [backwardRunSpec] at h <;>
    simp [backwardRunSpec, h]

theorem find_entity_after_eq (ws : List Token) (i : Nat) :
    find_entity_after ws i =
      if forwardRunSpec ws i = [] then none
      else some (String.join ((forwardRunSpec ws i).map Prod.fst)) := by
  rw [find_entity_after, scanAfter_nil]
  by_cases h : forwardRunSpec ws i = [] <;>
    simp [forwardRunSpec] at h <;>
    simp [forwardRunSpec, h]

theorem run_eq_nil_iff {α : Type} (p : α → Bool) (l : List α) :
    (l.dropWhile (fun a => ! p a)).takeWhile p = [] ↔ ∀ a ∈ l, ¬ p a := by
  induction l with
  | nil => simp
  | cons a l ih =>
    by_cases hp : p a
    · simp [List.dropWhile_cons, List.takeWhile_cons, hp]
    · simp [List.dropWhile_cons, hp, ih]

theorem find_entity_before_none_iff (ws : List Token) (i : Nat) :
    find_entity_before ws i = none ↔ ∀ t ∈ ws.take i, ¬ is_entity_word t.2 := by
  rw [find_entity_before_eq]
  constructor
  · intro h t ht
    by_cases hr : backwardRunSpec ws i = []
    · exact ((run_eq_nil_iff _ _).mp hr) t (by simpa using ht)
    · simp [hr] at h
  · intro h
    have : backwardRunSpec ws i = [] :=
      (run_eq_nil_iff _ _).mpr (fun t ht => h t (by simpa using ht))
    simp [this]

theorem find_entity_after_none_iff (ws : List Token) (i : Nat) :
    find_entity_after ws i = none ↔ ∀ t ∈ ws.drop (i + 1), ¬ is_entity_word t.2 := by
  rw [find_entity_after_eq]
  constructor
  · intro h t ht
    by_cases hr : forwardRunSpec ws i = []
    · exact ((run_eq_nil_iff _ _).mp hr) t ht
    · simp [hr] at h
  · intro h
    have : forwardRunSpec ws i = [] := (run_eq_nil_iff _ _).mpr h
    simp [this]

theorem find_entity_before_zero (ws : List Token) :
    find_entity_before ws 0 = none := by
  simp [find_entity_before, scanEntity]

example : find_entity_after [("坠毁", "v"), ("南海", "ns")] 0 = some "南海" := by decide

/-! ### Non-emptiness of found spans (Python truthiness bridge) -/

theorem string_ne_empty_iff {s : String} : s ≠ "" ↔ s.data ≠ [] := by
  constructor
  · intro h hd
    exact h (String.ext (hd.trans rfl))
  · intro h hs
    exact h (by simp [hs])

theorem foldl_append_data_ne (l : List String) :
    ∀ s : String, s.data ≠ [] → (l.foldl (· ++ ·) s).data ≠ [] := by
  induction l with
  | nil => intro s h; simpa using h
  | cons a l ih =>
    intro s h
    refine ih (s ++ a) ?_
    simp only [String.data_append]
    exact fun hc => h (List.append_eq_nil.mp hc).1

theorem join_ne_empty (l : List String) (hne : l ≠ [])
    (hall : ∀ x ∈ l, x ≠ "") : String.join l ≠ "" := by
  cases l with
  | nil => exact absurd rfl hne
  | cons x rest =>
    rw [string_ne_empty_iff]
    have hx : x.data ≠ [] := string_ne_empty_iff.mp (hall x (by simp))
    have : String.join (x :: rest) = rest.foldl (· ++ ·) ("" ++ x) := rfl
    rw [this]
    exact foldl_append_data_ne rest ("" ++ x) (by simpa using hx)

theorem find_entity_before_ne_empty (ws : List Token) (i : Nat) (s : String)
    (hws : ∀ t ∈ ws, t.1 ≠ "") (h : find_entity_before ws i = some s) :
    s ≠ "" := by
  rw [find_entity_before_eq] at h
  by_cases hr : backwardRunSpec ws i = []
  · simp [hr] at h
  · rw [if_neg hr, Option.some.injEq] at h
    subst h
    apply join_ne_empty
    · simpa using hr
    · intro x hx
      rw [List.mem_reverse, List.mem_map] at hx
      obtain ⟨t, ht, rfl⟩ := hx
      have h1 : t ∈ (ws.take i).reverse :=
        (List.dropWhile_sublist _).subset ((List.takeWhile_sublist _).subset ht)
      exact hws t (List.take_subset _ _ (List.mem_reverse.mp h1))

theorem find_entity_after_ne_empty (ws : List Token) (i : Nat) (s : String)
    (hws : ∀ t ∈ ws, t.1 ≠ "") (h : find_entity_after ws i = some s) :
    s ≠ "" := by
  rw [find_entity_after_eq] at h
  by_cases hr : forwardRunSpec ws i = []
  · simp [hr] at h
  · rw [if_neg hr, Option.some.injEq] at h
    subst h
    apply join_ne_empty
    · simpa using hr
    · intro x hx
      rw [List.mem_map] at hx
      obtain ⟨t, ht, rfl⟩ := hx
      have h1 : t ∈ ws.drop (i + 1) :=
        (List.dropWhile_sublist _).subset ((List.takeWhile_sublist _).subset ht)
      exact hws t (List.drop_subset _ _ h1)

/-! ### The backward verb scan and the word-index lookup -/

theorem verbScan_eq (l : List Token) :
    verbScan l = ((l.dropWhile (fun t => ! isCoreVerbTok t)).head?).map Prod.fst := by
  induction l with
  | nil => simp [verbScan]
  | cons t rest ih =>
    by_cases h : py_startswith t.2 "v" ∧ t.1 ∈ core_verbs
    · rw [verbScan, if_pos h]
      have hb : isCoreVerbTok t = true := by
        simp [isCoreVerbTok, h.1, h.2]
      simp [List.dropWhile_cons, hb]
    · rw [verbScan, if_neg h]
      have hb : isCoreVerbTok t = false := by
        simp only [isCoreVerbTok, Bool.and_eq_false_iff]
        by_cases h1 : py_startswith t.2 "v"
        · exact Or.inr (by simpa using fun h2 => h ⟨h1, h2⟩)
        · exact Or.inl (by simpa using h1)
      simpa [List.dropWhile_cons, hb] using ih

theorem verbScan_mem {v : String} :
    ∀ l : List Token, verbScan l = some v →
      ∃ t ∈ l, py_startswith t.2 "v" ∧ t.1 ∈ core_verbs ∧ v = t.1 := by
  intro l
  induction l with
  | nil => intro h; simp [verbScan] at h
  | cons t rest ih =>
    intro h
    by_cases htr : py_startswith t.2 "v" ∧ t.1 ∈ core_verbs
    · rw [verbScan, if_pos htr, Option.some.injEq] at h
      exact ⟨t, by simp, htr.1, htr.2, h.symm⟩
    · rw [verbScan, if_neg htr] at h
      obtain ⟨u, hu, h1, h2, h3⟩ := ih h
      exact ⟨u, by simp [hu], h1, h2, h3⟩

theorem find_verb_before_mem {ws : List Token} {i : Nat} {v : String}
    (h : find_verb_before ws i = some v) :
    ∃ t ∈ ws.take i, py_startswith t.2 "v" ∧ t.1 ∈ core_verbs ∧ v = t.1 := by
  obtain ⟨t, ht, h1, h2, h3⟩ := verbScan_mem _ h
  exact ⟨t, List.mem_reverse.mp ht, h1, h2, h3⟩

theorem core_verbs_ne_empty : ∀ v ∈ core_verbs, v ≠ "" := by decide

theorem find_verb_before_ne_empty {ws : List Token} {i : Nat} {v : String}
    (h : find_verb_before ws i = some v) : v ≠ "" := by
  obtain ⟨t, _, _, h2, h3⟩ := find_verb_before_mem h
  exact h3 ▸ core_verbs_ne_empty t.1 h2

theorem find_verb_before_none_iff (ws : List Token) (i : Nat) :
    find_verb_before ws i = none ↔
      ∀ t ∈ ws.take i, ¬(py_startswith t.2 "v" ∧ t.1 ∈ core_verbs) := by
  rw [find_verb_before]
  constructor
  · intro h t ht htr
    rw [verbScan_eq, Option.map_eq_none', List.head?_eq_none_iff,
      List.dropWhile_eq_nil_iff] at h
    have := h t (List.mem_reverse.mpr ht)
    simp [isCoreVerbTok, htr.1, htr.2] at this
  · intro h
    rw [verbScan_eq, Option.map_eq_none', List.head?_eq_none_iff,
      List.dropWhile_eq_nil_iff]
    intro t ht
    have := h t (List.mem_reverse.mp ht)
    simp only [isCoreVerbTok, Bool.not_eq_true', Bool.and_eq_false_iff]
    by_cases h1 : py_startswith t.2 "v"
    · exact Or.inr (by simpa using fun h2 => this ⟨h1, h2⟩)
    · exact Or.inl (by simpa using h1)

theorem find_word_index_neg_one_iff (wl : List String) (v : String) :
    find_word_index wl v = -1 ↔ v ∉ wl := by
  rw [find_word_index]
  cases h : wl.findIdx? (fun w => w = v) with
  | none =>
    rw [List.findIdx?_eq_none_iff] at h
    constructor
    · intro _ hv
      have := h v hv
      simp at this
    · intro _
      rfl
  | some i =>
    rw [List.findIdx?_eq_some_iff_getElem] at h
    obtain ⟨hi, hp, _⟩ := h
    constructor
    · intro hc
      exact absurd hc (by simp)
    · intro hv
      exact absurd (List.getElem_mem hi) (by simpa [of_decide_eq_true hp] using hv)

theorem find_word_index_first {wl : List String} {v : String} {n : Nat}
    (h : find_word_index wl v = (n : Int)) :
    ∃ hn : n < wl.length, wl[n] = v ∧ ∀ m < n, wl[m]? ≠ some v := by
  rw [find_word_index] at h
  cases hf : wl.findIdx? (fun w => w = v) with
  | none => rw [hf] at h; simp at h
  | some i =>
    rw [hf] at h
    have h' : (i : Int) = (n : Int) := h
    have hni : i = n := by exact_mod_cast h'
    subst hni
    rw [List.findIdx?_eq_some_iff_getElem] at hf
    obtain ⟨hi, hp, hmin⟩ := hf
    refine ⟨hi, of_decide_eq_true hp, ?_⟩
    intro m hm hc
    have hml : m < wl.length := Nat.lt_trans hm hi
    rw [List.getElem?_eq_getElem hml] at hc
    have : wl[m] = v := by simpa using hc
    exact (hmin m hm) (by simp [this])

example : classify_entity "直升机南海" = "MILITARY" := by decide

/-! ### The rule loops as index-wise emissions -/

theorem ruleLoop_eq (step : List Token → Nat → String → String → List Triple)
    (ws : List Token) : ∀ (i : Nat) (l : List Token),
    ruleLoop step ws i l = (l.enumFrom i).flatMap (fun x => step ws x.1 x.2.1 x.2.2) := by
  intro i l
  induction l generalizing i with
  | nil => simp [ruleLoop]
  | cons t rest ih => simp [ruleLoop, List.enumFrom_cons, ih]

theorem flatMap_eq_filterMap {α β : Type} (f : α → List β) (g : α → Option β)
    (l : List α) (h : ∀ a ∈ l, f a = (g a).toList) :
    l.flatMap f = l.filterMap g := by
  induction l with
  | nil => simp
  | cons a l ih =>
    rw [List.flatMap_cons, List.filterMap_cons,
      ih (fun x hx => h x (by simp [hx])), h a (by simp)]
    cases g a <;> simp

theorem find_word_index_of_verb {ws : List Token} {i : Nat} {verb : String}
    (h : find_verb_before ws i = some verb) :
    ∃ n : Nat, find_word_index (ws.map Prod.fst) verb = (n : Int) ∧ n < ws.length := by
  obtain ⟨t, ht, _, _, h3⟩ := find_verb_before_mem h
  have hv : verb ∈ ws.map Prod.fst := by
    rw [List.mem_map]
    exact ⟨t, List.take_subset _ _ ht, h3.symm⟩
  cases hf : (ws.map Prod.fst).findIdx? (fun w => w = verb) with
  | none =>
    rw [List.findIdx?_eq_none_iff] at hf
    have := hf verb hv
    simp at this
  | some n =>
    refine ⟨n, ?_, ?_⟩
    · rw [find_word_index, hf]
    · rw [List.findIdx?_eq_some_iff_getElem] at hf
      obtain ⟨hlen, _, _⟩ := hf
      simpa using hlen

theorem svoStep_eq (ws : List Token) (i : Nat) (w p : String)
    (hws : ∀ t ∈ ws, t.1 ≠ "") :
    svoStep ws i w p =
      (if w ∈ core_verbs ∧ py_startswith p "v" then
        match find_entity_before ws i, find_entity_after ws i with
        | some s, some o => some (create_triple s w o "SVO" conf_svo)
        | _, _ => none
      else none).toList := by
  by_cases htr : w ∈ core_verbs ∧ py_startswith p "v"
  · cases hb : find_entity_before ws i with
    | none => simp [svoStep, htr, hb]
    | some s =>
      cases ha : find_entity_after ws i with
      | none => simp [svoStep, htr, hb, ha]
      | some o =>
        have hs := find_entity_before_ne_empty ws i s hws hb
        have ho := find_entity_after_ne_empty ws i o hws ha
        simp [svoStep, htr, hb, ha, hs, ho]
  · simp [svoStep, htr]

theorem apposStep_eq (ws : List Token) (i : Nat) (w p : String)
    (hws : ∀ t ∈ ws, t.1 ≠ "") :
    apposStep ws i w p =
      (if w ∈ relation_verbs ∧ p = "v" then
        match find_entity_before ws i, find_entity_after ws i with
        | some s, some o => some (create_triple s "是" o "APPOS" conf_appos)
        | _, _ => none
      else none).toList := by
  by_cases htr : w ∈ relation_verbs ∧ p = "v"
  · cases hb : find_entity_before ws i with
    | none => simp [apposStep, htr, hb]
    | some s =>
      cases ha : find_entity_after ws i with
      | none => simp [apposStep, htr, hb, ha]
      | some o =>
        have hs := find_entity_before_ne_empty ws i s hws hb
        have ho := find_entity_after_ne_empty ws i o hws ha
        simp [apposStep, htr, hb, ha, hs, ho]
  · simp [apposStep, htr]

theorem attStep_eq (ws : List Token) (i : Nat) (w p : String)
    (hws : ∀ t ∈ ws, t.1 ≠ "") :
    attStep ws i w p =
      (if w = "的" ∧ p = "uj" then
        match find_entity_before ws i, find_entity_after ws i with
        | some s, some o => some (create_triple s "的" o "ATT" conf_att)
        | _, _ => none
      else none).toList := by
  by_cases htr : w = "的" ∧ p = "uj"
  · cases hb : find_entity_before ws i with
    | none => simp [attStep, htr, hb]
    | some s =>
      cases ha : find_entity_after ws i with
      | none => simp [attStep, htr, hb, ha]
      | some o =>
        have hs := find_entity_before_ne_empty ws i s hws hb
        have ho := find_entity_after_ne_empty ws i o hws ha
        simp [attStep, htr, hb, ha, hs, ho]
  · simp [attStep, htr]

theorem prepStep_eq (ws : List Token) (i : Nat) (w p : String)
    (hws : ∀ t ∈ ws, t.1 ≠ "") :
    prepStep ws i w p =
      (if w ∈ prepositions ∧ p = "p" then
        match find_verb_before ws i, find_entity_after ws i with
        | some verb, some obj =>
          (find_entity_before ws (find_word_index (ws.map Prod.fst) verb).toNat).map
            (fun subject => create_triple subject (verb ++ w) obj "PREP" conf_prep)
        | _, _ => none
      else none).toList := by
  by_cases htr : w ∈ prepositions ∧ p = "p"
  · cases hv : find_verb_before ws i with
    | none => simp [prepStep, htr, hv]
    | some verb =>
      cases ha : find_entity_after ws i with
      | none => simp [prepStep, htr, hv, ha]
      | some obj =>
        have hvne := find_verb_before_ne_empty hv
        have hone := find_entity_after_ne_empty ws i obj hws ha
        obtain ⟨n, hn, _⟩ := find_word_index_of_verb hv
        have hne : find_word_index (ws.map Prod.fst) verb ≠ -1 := by
          rw [hn]
          intro hc
          omega
        cases hb : find_entity_before ws
            (find_word_index (ws.map Prod.fst) verb).toNat with
        | none => simp [prepStep, htr, hv, ha, hvne, hone, hne, hb]
        | some subj =>
          have hsne := find_entity_before_ne_empty ws _ subj hws hb
          simp [prepStep, htr, hv, ha, hvne, hone, hne, hb, hsne]
  · simp [prepStep, htr]

theorem rule_svo_eq_filterMap (ws : List Token) (hws : ∀ t ∈ ws, t.1 ≠ "") :
    rule_svo ws = (ws.enum).filterMap (fun x =>
      if x.2.1 ∈ core_verbs ∧ py_startswith x.2.2 "v" then
        match find_entity_before ws x.1, find_entity_after ws x.1 with
        | some s, some o => some (create_triple s x.2.1 o "SVO" conf_svo)
        | _, _ => none
      else none) := by
  rw [rule_svo, ruleLoop_eq, List.enum]
  exact flatMap_eq_filterMap _ _ _ (fun a _ => svoStep_eq ws a.1 a.2.1 a.2.2 hws)

theorem rule_preposition_eq_filterMap (ws : List Token)
    (hws : ∀ t ∈ ws, t.1 ≠ "") :
    rule_preposition ws = (ws.enum).filterMap (fun x =>
      if x.2.1 ∈ prepositions ∧ x.2.2 = "p" then
        match find_verb_before ws x.1, find_entity_after ws x.1 with
        | some verb, some obj =>
          (find_entity_before ws (find_word_index (ws.map Prod.fst) verb).toNat).map
            (fun subject => create_triple subject (verb ++ x.2.1) obj "PREP" conf_prep)
        | _, _ => none
      else none) := by
  rw [rule_preposition, ruleLoop_eq, List.enum]
  exact flatMap_eq_filterMap _ _ _ (fun a _ => prepStep_eq ws a.1 a.2.1 a.2.2 hws)

theorem rule_apposition_eq_filterMap (ws : List Token)
    (hws : ∀ t ∈ ws, t.1 ≠ "") :
    rule_apposition ws = (ws.enum).filterMap (fun x =>
      if x.2.1 ∈ relation_verbs ∧ x.2.2 = "v" then
        match find_entity_before ws x.1, find_entity_after ws x.1 with
        | some s, some o => some (create_triple s "是" o "APPOS" conf_appos)
        | _, _ => none
      else none) := by
  rw [rule_apposition, ruleLoop_eq, List.enum]
  exact flatMap_eq_filterMap _ _ _ (fun a _ => apposStep_eq ws a.1 a.2.1 a.2.2 hws)

theorem rule_attribution_eq_filterMap (ws : List Token)
    (hws : ∀ t ∈ ws, t.1 ≠ "") :
    rule_attribution ws = (ws.enum).filterMap (fun x =>
      if x.2.1 = "的" ∧ x.2.2 = "uj" then
        match find_entity_before ws x.1, find_entity_after ws x.1 with
        | some s, some o => some (create_triple s "的" o "ATT" conf_att)
        | _, _ => none
      else none) := by
  rw [rule_attribution, ruleLoop_eq, List.enum]
  exact flatMap_eq_filterMap _ _ _ (fun a _ => attStep_eq ws a.1 a.2.1 a.2.2 hws)

/-! ### What the rules can emit (no assumption on the token list) -/

theorem ruleLoop_mem {step : List Token → Nat → String → String → List Triple}
    {ws : List Token} {tr : Triple} :
    ∀ {i : Nat} {l : List Token}, tr ∈ ruleLoop step ws i l →
      ∃ j w p, tr ∈ step ws j w p := by
  intro i l
  induction l generalizing i with
  | nil => intro h; simp [ruleLoop] at h
  | cons t rest ih =>
    intro h
    simp only [ruleLoop, List.mem_append] at h
    cases h with
    | inl h => exact ⟨i, t.1, t.2, h⟩
    | inr h => exact ih h

theorem svoStep_mem {ws : List Token} {i : Nat} {w p : String} {tr : Triple}
    (h : tr ∈ svoStep ws i w p) :
    ∃ s o, s ≠ "" ∧ o ≠ "" ∧ tr = create_triple s w o "SVO" conf_svo := by
  simp only [svoStep] at h
  split at h
  · split at h
    · split at h
      · rename_i s o hb ha hcond
        simp only [List.mem_singleton] at h
        exact ⟨s, o, hcond.1, hcond.2, h⟩
      · simp at h
    · simp at h
  · simp at h

theorem prepStep_mem {ws : List Token} {i : Nat} {w p : String} {tr : Triple}
    (h : tr ∈ prepStep ws i w p) :
    ∃ s verb o, s ≠ "" ∧ o ≠ "" ∧
      tr = create_triple s (verb ++ w) o "PREP" conf_prep := by
  simp only [prepStep] at h
  split at h
  · split at h
    · rename_i verb obj hv ha
      split at h
      · rename_i hvo
        split at h
        · split at h
          · rename_i subj hb
            split at h
            · rename_i hsub
              simp only [List.mem_singleton] at h
              exact ⟨subj, verb, obj, hsub, hvo.2, h⟩
            · simp at h
          · simp at h
        · simp at h
      · simp at h
    · simp at h
  · simp at h

theorem apposStep_mem {ws : List Token} {i : Nat} {w p : String} {tr : Triple}
    (h : tr ∈ apposStep ws i w p) :
    ∃ s o, s ≠ "" ∧ o ≠ "" ∧ tr = create_triple s "是" o "APPOS" conf_appos := by
  simp only [apposStep] at h
  split at h
  · split at h
    · split at h
      · rename_i s o hb ha hcond
        simp only [List.mem_singleton] at h
        exact ⟨s, o, hcond.1, hcond.2, h⟩
      · simp at h
    · simp at h
  · simp at h

theorem attStep_mem {ws : List Token} {i : Nat} {w p : String} {tr : Triple}
    (h : tr ∈ attStep ws i w p) :
    ∃ s o, s ≠ "" ∧ o ≠ "" ∧ tr = create_triple s "的" o "ATT" conf_att := by
  simp only [attStep] at h
  split at h
  · split at h
    · split at h
      · rename_i s o hb ha hcond
        simp only [List.mem_singleton] at h
        exact ⟨s, o, hcond.1, hcond.2, h⟩
      · simp at h
    · simp at h
  · simp at h

theorem rule_svo_mem {ws : List Token} {tr : Triple} (h : tr ∈ rule_svo ws) :
    tr.subject ≠ "" ∧ tr.object ≠ "" ∧ tr.rule = "SVO" ∧
      tr.confidence = conf_svo := by
  obtain ⟨j, w, p, hstep⟩ := ruleLoop_mem h
  obtain ⟨s, o, hs, ho, rfl⟩ := svoStep_mem hstep
  exact ⟨hs, ho, rfl, rfl⟩

theorem rule_preposition_mem {ws : List Token} {tr : Triple}
    (h : tr ∈ rule_preposition ws) :
    tr.subject ≠ "" ∧ tr.object ≠ "" ∧ tr.rule = "PREP" ∧
      tr.confidence = conf_prep := by
  obtain ⟨j, w, p, hstep⟩ := ruleLoop_mem h
  obtain ⟨s, verb, o, hs, ho, rfl⟩ := prepStep_mem hstep
  exact ⟨hs, ho, rfl, rfl⟩

theorem rule_apposition_mem {ws : List Token} {tr : Triple}
    (h : tr ∈ rule_apposition ws) :
    tr.subject ≠ "" ∧ tr.object ≠ "" ∧ tr.relation = "是" ∧
      tr.rule = "APPOS" ∧ tr.confidence = conf_appos := by
  obtain ⟨j, w, p, hstep⟩ := ruleLoop_mem h
  obtain ⟨s, o, hs, ho, rfl⟩ := apposStep_mem hstep
  exact ⟨hs, ho, rfl, rfl, rfl⟩

theorem rule_attribution_mem {ws : List Token} {tr : Triple}
    (h : tr ∈ rule_attribution ws) :
    tr.subject ≠ "" ∧ tr.object ≠ "" ∧ tr.rule = "ATT" ∧
      tr.confidence = conf_att := by
  obtain ⟨j, w, p, hstep⟩ := ruleLoop_mem h
  obtain ⟨s, o, hs, ho, rfl⟩ := attStep_mem hstep
  exact ⟨hs, ho, rfl, rfl⟩

/-! ### The claims about the span finder and the rules -/

/-- C2: the entity span finder scans away from the anchor, skips non-entity
tokens seen before the first entity-like token (tag beginning `"n"`), then
accumulates the surfaces of a contiguous run of entity-like tokens, stopping
at the first non-entity token after the accumulator is non-empty; the result
is the collected surfaces concatenated in sentence order, and it is `none`
exactly when no entity-like token exists in the scanned direction; a backward
scan from anchor `0` is `none`. -/
theorem claim_C2_span_finder :
    (∀ (ws : List Token) (i : Nat), i ≤ ws.length →
      find_entity_before ws i =
        if backwardRunSpec ws i = [] then none
        else some (String.join (((backwardRunSpec ws i).map Prod.fst).reverse)))
    ∧ (∀ (ws : List Token) (i : Nat),
      find_entity_after ws i =
        if forwardRunSpec ws i = [] then none
        else some (String.join ((forwardRunSpec ws i).map Prod.fst)))
    ∧ (∀ (ws : List Token) (i : Nat), i ≤ ws.length →
      (find_entity_before ws i = none ↔ ∀ t ∈ ws.take i, ¬ is_entity_word t.2))
    ∧ (∀ (ws : List Token) (i : Nat),
      find_entity_after ws i = none ↔ ∀ t ∈ ws.drop (i + 1), ¬ is_entity_word t.2)
    ∧ (∀ ws : List Token, find_entity_before ws 0 = none) :=
  ⟨fun ws i _ => find_entity_before_eq ws i,
   find_entity_after_eq,
   fun ws i _ => find_entity_before_none_iff ws i,
   find_entity_after_none_iff,
   find_entity_before_zero⟩

/-- Witness for C2 at the concrete token list `[("海军","n"), ("坠毁","v")]`
with anchor `1`. -/
theorem claim_C2_span_finder_witness :
    (1 ≤ ([("海军", "n"), ("坠毁", "v")] : List Token).length) ∧
    find_entity_before [("海军", "n"), ("坠毁", "v")] 1 =
      (if backwardRunSpec [("海军", "n"), ("坠毁", "v")] 1 = [] then none
       else some (String.join
         (((backwardRunSpec [("海军", "n"), ("坠毁", "v")] 1).map Prod.fst).reverse))) :=
  ⟨by decide, claim_C2_span_finder.1 [("海军", "n"), ("坠毁", "v")] 1 (by decide)⟩

/-- C3: the SVO rule emits a triple exactly at each token whose surface is a
core verb with tag starting `"v"` and whose backward and forward spans are
both present, the triple having the verb surface as relation, confidence 0.8
and rule tag SVO; in particular the tagged sentence
`[("直升机","n"), ("坠毁","v"), ("南海","ns")]` yields exactly the one triple
`("直升机", "坠毁", "南海")`. -/
theorem claim_C3_svo_rule :
    (∀ ws : List Token, (∀ t ∈ ws, t.1 ≠ "") →
      rule_svo ws = (ws.enum).filterMap (fun x =>
        if x.2.1 ∈ core_verbs ∧ py_startswith x.2.2 "v" then
          match find_entity_before ws x.1, find_entity_after ws x.1 with
          | some s, some o => some (create_triple s x.2.1 o "SVO" conf_svo)
          | _, _ => none
        else none))
    ∧ (∀ (ws : List Token) (tr : Triple), tr ∈ rule_svo ws →
        tr.rule = "SVO" ∧ tr.confidence = conf_svo)
    ∧ conf_svo = 0.8
    ∧ ("坠毁" ∈ core_verbs ∧
       rule_svo [("直升机", "n"), ("坠毁", "v"), ("南海", "ns")] =
         [create_triple "直升机" "坠毁" "南海" "SVO" conf_svo]) :=
  ⟨rule_svo_eq_filterMap,
   fun _ _ h => ⟨(rule_svo_mem h).2.2.1, (rule_svo_mem h).2.2.2⟩,
   conf_svo_eq,
   by decide,
   by decide⟩

/-- Witness for C3 at the concrete three-token sentence. -/
theorem claim_C3_svo_rule_witness :
    rule_svo [("直升机", "n"), ("坠毁", "v"), ("南海", "ns")] =
      (([("直升机", "n"), ("坠毁", "v"), ("南海", "ns")] : List Token).enum).filterMap
        (fun x =>
          if x.2.1 ∈ core_verbs ∧ py_startswith x.2.2 "v" then
            match find_entity_before [("直升机", "n"), ("坠毁", "v"), ("南海", "ns")] x.1,
                find_entity_after [("直升机", "n"), ("坠毁", "v"), ("南海", "ns")] x.1 with
            | some s, some o => some (create_triple s x.2.1 o "SVO" conf_svo)
            | _, _ => none
          else none) :=
  claim_C3_svo_rule.1 [("直升机", "n"), ("坠毁", "v"), ("南海", "ns")] (by decide)

/-- C4: the PREP rule triggers on preposition-surface tokens with tag exactly
`"p"`, finds the nearest preceding core-verb token by a backward first-match
scan, takes the object forward from the preposition, locates the subject
backward from the index of the first occurrence of that verb surface in the
whole word list (searched from index 0), and emits
`(subject, verb ++ prep, object)` with confidence 0.7 and rule tag PREP. -/
theorem claim_C4_prep_rule :
    (∀ ws : List Token, (∀ t ∈ ws, t.1 ≠ "") →
      rule_preposition ws = (ws.enum).filterMap (fun x =>
        if x.2.1 ∈ prepositions ∧ x.2.2 = "p" then
          match find_verb_before ws x.1, find_entity_after ws x.1 with
          | some verb, some obj =>
            (find_entity_before ws (find_word_index (ws.map Prod.fst) verb).toNat).map
              (fun subject => create_triple subject (verb ++ x.2.1) obj "PREP" conf_prep)
          | _, _ => none
        else none))
    ∧ (∀ (ws : List Token) (i : Nat),
        find_verb_before ws i =
          (((ws.take i).reverse.dropWhile (fun t => ! isCoreVerbTok t)).head?).map
            Prod.fst)
    ∧ (∀ (wl : List String) (v : String) (n : Nat),
        find_word_index wl v = (n : Int) →
          ∃ hn : n < wl.length, wl[n] = v ∧ ∀ m < n, wl[m]? ≠ some v)
    ∧ conf_prep = 0.7 :=
  ⟨rule_preposition_eq_filterMap,
   fun ws i => verbScan_eq ((ws.take i).reverse),
   fun _ _ _ h => find_word_index_first h,
   conf_prep_eq⟩

/-- Witness for C4 at a concrete sentence
`[("火箭","n"), ("发射","v"), ("在","p"), ("西昌","ns")]`. -/
theorem claim_C4_prep_rule_witness :
    (rule_preposition [("火箭", "n"), ("发射", "v"), ("在", "p"), ("西昌", "ns")] =
      (([("火箭", "n"), ("发射", "v"), ("在", "p"), ("西昌", "ns")] : List Token).enum).filterMap
        (fun x =>
          if x.2.1 ∈ prepositions ∧ x.2.2 = "p" then
            match find_verb_before [("火箭", "n"), ("发射", "v"), ("在", "p"), ("西昌", "ns")] x.1,
                find_entity_after [("火箭", "n"), ("发射", "v"), ("在", "p"), ("西昌", "ns")] x.1 with
            | some verb, some obj =>
              (find_entity_before [("火箭", "n"), ("发射", "v"), ("在", "p"), ("西昌", "ns")]
                  (find_word_index
                    (([("火箭", "n"), ("发射", "v"), ("在", "p"), ("西昌", "ns")] : List Token).map
                      Prod.fst) verb).toNat).map
                (fun subject => create_triple subject (verb ++ x.2.1) obj "PREP" conf_prep)
            | _, _ => none
          else none))
    ∧ (∃ hn : 1 < (["火箭", "发射", "在", "西昌"] : List String).length,
        (["火箭", "发射", "在", "西昌"] : List String)[1] = "发射" ∧
        ∀ m < 1, (["火箭", "发射", "在", "西昌"] : List String)[m]? ≠ some "发射") :=
  ⟨claim_C4_prep_rule.1 [("火箭", "n"), ("发射", "v"), ("在", "p"), ("西昌", "ns")] (by decide),
   claim_C4_prep_rule.2.2.1 ["火箭", "发射", "在", "西昌"] "发射" 1 (by decide)⟩

/-- C5: every APPOS triple has relation exactly the literal `"是"` and
confidence 0.9, regardless of which relation verb triggered it; the rule
triggers only on relation-verb surfaces with tag exactly `"v"` and emits only
when both spans are present — e.g. the trigger `"为"` still yields relation
`"是"`. -/
theorem claim_C5_appos_literal :
    (∀ (ws : List Token) (tr : Triple), tr ∈ rule_apposition ws →
      tr.relation = "是" ∧ tr.confidence = conf_appos ∧ tr.rule = "APPOS")
    ∧ conf_appos = 0.9
    ∧ (∀ ws : List Token, (∀ t ∈ ws, t.1 ≠ "") →
      rule_apposition ws = (ws.enum).filterMap (fun x =>
        if x.2.1 ∈ relation_verbs ∧ x.2.2 = "v" then
          match find_entity_before ws x.1, find_entity_after ws x.1 with
          | some s, some o => some (create_triple s "是" o "APPOS" conf_appos)
          | _, _ => none
        else none))
    ∧ ("为" ∈ relation_verbs ∧
       rule_apposition [("北斗", "n"), ("为", "v"), ("卫星", "n")] =
         [create_triple "北斗" "是" "卫星" "APPOS" conf_appos]) :=
  ⟨fun _ _ h =>
      ⟨(rule_apposition_mem h).2.2.1, (rule_apposition_mem h).2.2.2.2,
       (rule_apposition_mem h).2.2.2.1⟩,
   conf_appos_eq,
   rule_apposition_eq_filterMap,
   by decide,
   by decide⟩

/-- Witness for C5: the triple emitted by the `"为"`-triggered apposition has
relation `"是"`, confidence 0.9 and rule tag APPOS. -/
theorem claim_C5_appos_literal_witness :
    (create_triple "北斗" "是" "卫星" "APPOS" conf_appos ∈
        rule_apposition [("北斗", "n"), ("为", "v"), ("卫星", "n")]) ∧
    ((create_triple "北斗" "是" "卫星" "APPOS" conf_appos).relation = "是" ∧
     (create_triple "北斗" "是" "卫星" "APPOS" conf_appos).confidence = conf_appos ∧
     (create_triple "北斗" "是" "卫星" "APPOS" conf_appos).rule = "APPOS") :=
  ⟨by decide,
   claim_C5_appos_literal.1 [("北斗", "n"), ("为", "v"), ("卫星", "n")]
     (create_triple "北斗" "是" "卫星" "APPOS" conf_appos) (by decide)⟩

/-- C7: every triple any rule creates has a non-empty subject and a non-empty
object, and its confidence is the one literal of its rule kind
(SVO → 0.8, PREP → 0.7, APPOS → 0.9, ATT → 0.85); no other confidence
value appears. -/
theorem claim_C7_triple_invariants (ws : List Token) (tr : Triple)
    (h : tr ∈ rule_svo ws ∨ tr ∈ rule_preposition ws ∨
         tr ∈ rule_apposition ws ∨ tr ∈ rule_attribution ws) :
    tr.subject ≠ "" ∧ tr.object ≠ "" ∧
    (tr.confidence = 0.7 ∨ tr.confidence = 0.8 ∨
     tr.confidence = 0.85 ∨ tr.confidence = 0.9) ∧
    ((tr.rule = "SVO" → tr.confidence = 0.8) ∧
     (tr.rule = "PREP" → tr.confidence = 0.7) ∧
     (tr.rule = "APPOS" → tr.confidence = 0.9) ∧
     (tr.rule = "ATT" → tr.confidence = 0.85)) := by
  rcases h with h | h | h | h
  · obtain ⟨hs, ho, hr, hc⟩ := rule_svo_mem h
    refine ⟨hs, ho, Or.inr (Or.inl (hc.trans conf_svo_eq)), ?_, ?_, ?_, ?_⟩ <;>
      intro hrr <;> rw [hr] at hrr <;> first
        | exact hc.trans conf_svo_eq
        | exact absurd hrr (by decide)
  · obtain ⟨hs, ho, hr, hc⟩ := rule_preposition_mem h
    refine ⟨hs, ho, Or.inl (hc.trans conf_prep_eq), ?_, ?_, ?_, ?_⟩ <;>
      intro hrr <;> rw [hr] at hrr <;> first
        | exact hc.trans conf_prep_eq
        | exact absurd hrr (by decide)
  · obtain ⟨hs, ho, _, hr, hc⟩ := rule_apposition_mem h
    refine ⟨hs, ho, Or.inr (Or.inr (Or.inr (hc.trans conf_appos_eq))), ?_, ?_, ?_, ?_⟩ <;>
      intro hrr <;> rw [hr] at hrr <;> first
        | exact hc.trans conf_appos_eq
        | exact absurd hrr (by decide)
  · obtain ⟨hs, ho, hr, hc⟩ := rule_attribution_mem h
    refine ⟨hs, ho, Or.inr (Or.inr (Or.inl (hc.trans conf_att_eq))), ?_, ?_, ?_, ?_⟩ <;>
      intro hrr <;> rw [hr] at hrr <;> first
        | exact hc.trans conf_att_eq
        | exact absurd hrr (by decide)

/-- Witness for C7 at the concrete SVO emission. -/
theorem claim_C7_triple_invariants_witness :
    (create_triple "直升机" "坠毁" "南海" "SVO" conf_svo).subject ≠ "" ∧
    (create_triple "直升机" "坠毁" "南海" "SVO" conf_svo).object ≠ "" ∧
    ((create_triple "直升机" "坠毁" "南海" "SVO" conf_svo).confidence = 0.7 ∨
     (create_triple "直升机" "坠毁" "南海" "SVO" conf_svo).confidence = 0.8 ∨
     (create_triple "直升机" "坠毁" "南海" "SVO" conf_svo).confidence = 0.85 ∨
     (create_triple "直升机" "坠毁" "南海" "SVO" conf_svo).confidence = 0.9) ∧
    (((create_triple "直升机" "坠毁" "南海" "SVO" conf_svo).rule = "SVO" →
        (create_triple "直升机" "坠毁" "南海" "SVO" conf_svo).confidence = 0.8) ∧
     ((create_triple "直升机" "坠毁" "南海" "SVO" conf_svo).rule = "PREP" →
        (create_triple "直升机" "坠毁" "南海" "SVO" conf_svo).confidence = 0.7) ∧
     ((create_triple "直升机" "坠毁" "南海" "SVO" conf_svo).rule = "APPOS" →
        (create_triple "直升机" "坠毁" "南海" "SVO" conf_svo).confidence = 0.9) ∧
     ((create_triple "直升机" "坠毁" "南海" "SVO" conf_svo).rule = "ATT" →
        (create_triple "直升机" "坠毁" "南海" "SVO" conf_svo).confidence = 0.85)) :=
  claim_C7_triple_invariants [("直升机", "n"), ("坠毁", "v"), ("南海", "ns")]
    (create_triple "直升机" "坠毁" "南海" "SVO" conf_svo) (Or.inl (by decide))

/-- C10: whenever `find_verb_before` returns a verb, that verb surface occurs
in the sentence's word list, so `find_word_index` returns a valid index; the
`verb_index != -1` failure branch of `rule_preposition` is unreachable under
that precondition. -/
theorem claim_C10_verb_index_safe (ws : List Token) (i : Nat) (v : String)
    (h : find_verb_before ws i = some v) :
    find_word_index (ws.map Prod.fst) v ≠ -1 ∧
    ∃ n : Nat, find_word_index (ws.map Prod.fst) v = (n : Int) ∧ n < ws.length := by
  obtain ⟨n, hn, hlen⟩ := find_word_index_of_verb h
  refine ⟨?_, n, hn, hlen⟩
  rw [hn]
  intro hc
  omega

/-- Witness for C10 at a concrete sentence where the backward verb scan
succeeds. -/
theorem claim_C10_verb_index_safe_witness :
    find_word_index (([("直升机", "n"), ("坠毁", "v"), ("南海", "ns")] : List Token).map
        Prod.fst) "坠毁" ≠ -1 ∧
    ∃ n : Nat,
      find_word_index (([("直升机", "n"), ("坠毁", "v"), ("南海", "ns")] : List Token).map
          Prod.fst) "坠毁" = (n : Int) ∧
      n < ([("直升机", "n"), ("坠毁", "v"), ("南海", "ns")] : List Token).length :=
  claim_C10_verb_index_safe [("直升机", "n"), ("坠毁", "v"), ("南海", "ns")] 2 "坠毁"
    (by decide)

/-! ### The aggregator: deduplication and stable confidence sort -/

theorem dedupLoop_sublist (seen : List (String × String × String)) :
    ∀ l : List Triple, List.Sublist (dedupLoop seen l) l := by
  intro l
  induction l generalizing seen with
  | nil => simp [dedupLoop]
  | cons t rest ih =>
    rw [dedupLoop]
    split
    · exact (ih seen).trans (List.sublist_cons_self t rest)
    · exact List.Sublist.cons₂ t (ih _)

theorem mem_dedupLoop_not_seen :
    ∀ (l : List Triple) (seen) (t : Triple),
      t ∈ dedupLoop seen l → tripleKey t ∉ seen := by
  intro l
  induction l with
  | nil =>
    intro seen t h
    simp [dedupLoop] at h
  | cons u rest ih =>
    intro seen t h
    rw [dedupLoop] at h
    by_cases hu : tripleKey u ∈ seen
    · rw [if_pos hu] at h
      exact ih seen t h
    · rw [if_neg hu] at h
      rcases List.mem_cons.mp h with heq | h2
      · rw [heq]
        exact hu
      · have hns := ih _ t h2
        exact fun hc => hns (List.mem_cons_of_mem _ hc)

theorem dedupLoop_pairwise (l : List Triple) :
    ∀ seen, (dedupLoop seen l).Pairwise (fun a b => tripleKey a ≠ tripleKey b) := by
  induction l with
  | nil =>
    intro seen
    simp [dedupLoop]
  | cons u rest ih =>
    intro seen
    rw [dedupLoop]
    by_cases hu : tripleKey u ∈ seen
    · rw [if_pos hu]
      exact ih seen
    · rw [if_neg hu]
      refine List.Pairwise.cons ?_ (ih _)
      intro b hb hc
      exact mem_dedupLoop_not_seen rest _ b hb (by rw [← hc]; exact List.mem_cons_self _ _)

theorem mem_dedupLoop_iff (l : List Triple) :
    ∀ (seen) (t : Triple),
      t ∈ dedupLoop seen l ↔
        (l.find? (fun u => tripleKey u = tripleKey t) = some t ∧
          tripleKey t ∉ seen) := by
  induction l with
  | nil =>
    intro seen t
    simp [dedupLoop]
  | cons u rest ih =>
    intro seen t
    rw [dedupLoop]
    by_cases hu : tripleKey u ∈ seen
    · rw [if_pos hu, ih seen t]
      by_cases hk : tripleKey u = tripleKey t
      · have hts : tripleKey t ∈ seen := hk ▸ hu
        simp [hts]
      · rw [List.find?_cons_of_neg _ (by simpa using hk)]
    · rw [if_neg hu]
      constructor
      · intro h
        rcases List.mem_cons.mp h with heq | h2
        · subst heq
          exact ⟨List.find?_cons_of_pos _ (by simp), hu⟩
        · obtain ⟨hf, hns⟩ := (ih _ t).mp h2
          have hk : tripleKey u ≠ tripleKey t :=
            fun hc => hns (by rw [← hc]; exact List.mem_cons_self _ _)
          rw [List.find?_cons_of_neg _ (by simpa using hk)]
          exact ⟨hf, fun hc => hns (List.mem_cons_of_mem _ hc)⟩
      · rintro ⟨hf, hns⟩
        by_cases hk : tripleKey u = tripleKey t
        · rw [List.find?_cons_of_pos _ (by simpa using hk)] at hf
          have : u = t := by simpa using hf
          rw [← this]
          exact List.mem_cons_self _ _
        · rw [List.find?_cons_of_neg _ (by simpa using hk)] at hf
          refine List.mem_cons_of_mem _ ((ih _ t).mpr ⟨hf, ?_⟩)
          intro hc
          rcases List.mem_cons.mp hc with hc1 | hc2
          · exact hk hc1.symm
          · exact hns hc2

theorem dedupLoop_eq_self :
    ∀ (l : List Triple) (seen),
      l.Pairwise (fun a b => tripleKey a ≠ tripleKey b) →
      (∀ t ∈ l, tripleKey t ∉ seen) →
      dedupLoop seen l = l := by
  intro l
  induction l with
  | nil =>
    intro seen _ _
    rfl
  | cons u rest ih =>
    intro seen hp hs
    rw [dedupLoop, if_neg (hs u (List.mem_cons_self _ _))]
    rw [ih _ hp.of_cons]
    intro t ht hc
    rcases List.mem_cons.mp hc with hc1 | hc2
    · exact (List.rel_of_pairwise_cons hp ht) hc1.symm
    · exact hs t (List.mem_cons_of_mem _ ht) hc2

theorem confLE_trans : ∀ a b c : Triple, confLE a b → confLE b c → confLE a c := by
  intro a b c hab hbc
  simp only [confLE, decide_eq_true_eq] at hab hbc ⊢
  exact le_trans hbc hab

theorem confLE_total : ∀ a b : Triple, confLE a b || confLE b a := by
  intro a b
  simp only [confLE]
  rcases le_total a.confidence b.confidence with h | h <;> simp [h]

theorem mergeSort_filter_const {p : Triple → Bool}
    (hp : ∀ a b, p a → p b → confLE a b) (l : List Triple) :
    (l.mergeSort confLE).filter p = l.filter p := by
  have hc : (l.filter p).Pairwise (fun a b => confLE a b) :=
    List.pairwise_of_forall_mem_list
      (fun a ha b hb => hp a b (List.of_mem_filter ha) (List.of_mem_filter hb))
  have hsub : List.Sublist (l.filter p) (l.mergeSort confLE) :=
    List.sublist_mergeSort confLE_trans confLE_total hc (List.filter_sublist l)
  have hfil : List.Sublist (l.filter p) ((l.mergeSort confLE).filter p) := by
    have h2 := hsub.filter p
    rwa [List.filter_filter, show (fun a => p a && p a) = p from funext fun a => Bool.and_self _]
      at h2
  have hlen : ((l.mergeSort confLE).filter p).length = (l.filter p).length :=
    ((List.mergeSort_perm l confLE).filter p).length_eq
  exact (hfil.eq_of_length hlen.symm).symm

theorem post_process_pairwise_key (ts : List Triple) :
    (post_process ts).Pairwise (fun a b => tripleKey a ≠ tripleKey b) := by
  rw [post_process]
  exact ((List.mergeSort_perm (dedupLoop [] ts) confLE).pairwise_iff
    (fun h => Ne.symm h)).mpr (dedupLoop_pairwise ts [])

theorem post_process_mem_iff (ts : List Triple) (t : Triple) :
    t ∈ post_process ts ↔
      ts.find? (fun u => tripleKey u = tripleKey t) = some t := by
  rw [post_process, List.mem_mergeSort, mem_dedupLoop_iff ts [] t]
  simp

theorem post_process_sorted (ts : List Triple) :
    (post_process ts).Pairwise (fun a b => b.confidence ≤ a.confidence) := by
  rw [post_process]
  exact (List.sorted_mergeSort confLE_trans confLE_total (dedupLoop [] ts)).imp
    (fun h => by simpa [confLE] using h)

theorem post_process_filter_conf (ts : List Triple) (c : ℚ) :
    (post_process ts).filter (fun t => t.confidence = c) =
      (dedupLoop [] ts).filter (fun t => t.confidence = c) := by
  rw [post_process]
  refine mergeSort_filter_const ?_ (dedupLoop [] ts)
  intro a b ha hb
  simp only [decide_eq_true_eq] at ha hb
  simp [confLE, ha, hb]

theorem post_process_of_processed {ts : List Triple}
    (h1 : ts.Pairwise (fun a b => tripleKey a ≠ tripleKey b))
    (h2 : ts.Pairwise (fun a b => b.confidence ≤ a.confidence)) :
    post_process ts = ts := by
  rw [post_process, dedupLoop_eq_self ts [] h1 (by simp)]
  exact List.mergeSort_of_sorted (h2.imp fun h => by simp [confLE, h])

/-- C1: the aggregator's output contains each (subject, relation, object)
key at most once; it contains a triple iff that triple is the first one of
its key in construction order (so the kept instance carries the first
occurrence's confidence, rule and types); and the output is the
deduplicated list stable-sorted by confidence descending: it is sorted,
the deduplicated list preserves input order (a sublist of the input), and
triples of equal confidence appear exactly as in the deduplicated list. -/
theorem claim_C1_aggregator (ts : List Triple) :
    (post_process ts).Pairwise (fun a b => tripleKey a ≠ tripleKey b)
    ∧ (∀ t : Triple, t ∈ post_process ts ↔
        ts.find? (fun u => tripleKey u = tripleKey t) = some t)
    ∧ (post_process ts).Pairwise (fun a b => b.confidence ≤ a.confidence)
    ∧ List.Sublist (dedupLoop [] ts) ts
    ∧ (∀ c : ℚ, (post_process ts).filter (fun t => t.confidence = c) =
        (dedupLoop [] ts).filter (fun t => t.confidence = c)) :=
  ⟨post_process_pairwise_key ts,
   post_process_mem_iff ts,
   post_process_sorted ts,
   dedupLoop_sublist [] ts,
   post_process_filter_conf ts⟩

/-- C8: aggregating an already-deduplicated, already-sorted list is a no-op,
and `post_process` is idempotent. -/
theorem claim_C8_idempotent :
    (∀ ts : List Triple,
      ts.Pairwise (fun a b => tripleKey a ≠ tripleKey b) →
      ts.Pairwise (fun a b => b.confidence ≤ a.confidence) →
      post_process ts = ts)
    ∧ (∀ ts : List Triple, post_process (post_process ts) = post_process ts) := by
  constructor
  · intro ts h1 h2
    exact post_process_of_processed h1 h2
  · intro ts
    exact post_process_of_processed (post_process_pairwise_key ts)
      (post_process_sorted ts)

/-- Witness for C8 on a concrete one-element list. -/
theorem claim_C8_idempotent_witness :
    post_process [create_triple "直升机" "坠毁" "南海" "SVO" conf_svo] =
      [create_triple "直升机" "坠毁" "南海" "SVO" conf_svo] :=
  claim_C8_idempotent.1 [create_triple "直升机" "坠毁" "南海" "SVO" conf_svo]
    (by simp) (by simp)

/-! ### The entity classifier -/

theorem classify_entity_military (s : String) (hs : s ≠ "")
    (h : ∃ kw ∈ military_keywords, strIn kw s) :
    classify_entity s = "MILITARY" := by
  have hm : military_keywords.any (fun kw => strIn kw s) = true := by
    rw [List.any_eq_true]
    obtain ⟨kw, h1, h2⟩ := h
    exact ⟨kw, h1, h2⟩
  simp [classify_entity, hs, hm]

theorem classify_entity_location (s : String) (hs : s ≠ "")
    (hm : ∀ kw ∈ military_keywords, ¬ strIn kw s)
    (h : ∃ kw ∈ location_keywords, strIn kw s) :
    classify_entity s = "LOCATION" := by
  have hm' : military_keywords.any (fun kw => strIn kw s) = false := by
    rw [List.any_eq_false]
    exact hm
  have hl : location_keywords.any (fun kw => strIn kw s) = true := by
    rw [List.any_eq_true]
    obtain ⟨kw, h1, h2⟩ := h
    exact ⟨kw, h1, h2⟩
  simp [classify_entity, hs, hm', hl]

theorem classify_entity_person (s : String) (hs : s ≠ "")
    (hm : ∀ kw ∈ military_keywords, ¬ strIn kw s)
    (hl : ∀ kw ∈ location_keywords, ¬ strIn kw s)
    (h : ∃ kw ∈ person_keywords, strIn kw s) :
    classify_entity s = "PERSON" := by
  have hm' : military_keywords.any (fun kw => strIn kw s) = false := by
    rw [List.any_eq_false]
    exact hm
  have hl' : location_keywords.any (fun kw => strIn kw s) = false := by
    rw [List.any_eq_false]
    exact hl
  have hp : person_keywords.any (fun kw => strIn kw s) = true := by
    rw [List.any_eq_true]
    obtain ⟨kw, h1, h2⟩ := h
    exact ⟨kw, h1, h2⟩
  simp [classify_entity, hs, hm', hl', hp]

theorem classify_entity_org (s : String) (hs : s ≠ "")
    (hm : ∀ kw ∈ military_keywords, ¬ strIn kw s)
    (hl : ∀ kw ∈ location_keywords, ¬ strIn kw s)
    (hp : ∀ kw ∈ person_keywords, ¬ strIn kw s)
    (h : ∃ kw ∈ org_keywords, strIn kw s) :
    classify_entity s = "ORGANIZATION" := by
  have hm' : military_keywords.any (fun kw => strIn kw s) = false := by
    rw [List.any_eq_false]
    exact hm
  have hl' : location_keywords.any (fun kw => strIn kw s) = false := by
    rw [List.any_eq_false]
    exact hl
  have hp' : person_keywords.any (fun kw => strIn kw s) = false := by
    rw [List.any_eq_false]
    exact hp
  have ho : org_keywords.any (fun kw => strIn kw s) = true := by
    rw [List.any_eq_true]
    obtain ⟨kw, h1, h2⟩ := h
    exact ⟨kw, h1, h2⟩
  simp [classify_entity, hs, hm', hl', hp', ho]

theorem classify_entity_generic (s : String) (hs : s ≠ "")
    (h : ∀ kw ∈ military_keywords ++ location_keywords ++
        person_keywords ++ org_keywords, ¬ strIn kw s) :
    classify_entity s = "ENTITY" := by
  have hm' : military_keywords.any (fun kw => strIn kw s) = false := by
    rw [List.any_eq_false]
    exact fun kw hk => h kw (by simp [hk])
  have hl' : location_keywords.any (fun kw => strIn kw s) = false := by
    rw [List.any_eq_false]
    exact fun kw hk => h kw (by simp [hk])
  have hp' : person_keywords.any (fun kw => strIn kw s) = false := by
    rw [List.any_eq_false]
    exact fun kw hk => h kw (by simp [hk])
  have ho' : org_keywords.any (fun kw => strIn kw s) = false := by
    rw [List.any_eq_false]
    exact fun kw hk => h kw (by simp [hk])
  simp [classify_entity, hs, hm', hl', hp', ho']

/-- C6: the classifier tests the four keyword sets in priority order
military, location, person, organization with substring-containment
semantics, first match winning; an entity containing both a military and a
location keyword is MILITARY; the empty (absent) entity is UNKNOWN; a
non-empty entity matching nothing is ENTITY. -/
theorem claim_C6_classifier :
    classify_entity "" = "UNKNOWN"
    ∧ (∀ s : String, s ≠ "" → (∃ kw ∈ military_keywords, strIn kw s) →
        classify_entity s = "MILITARY")
    ∧ (∀ s : String, s ≠ "" → (∀ kw ∈ military_keywords, ¬ strIn kw s) →
        (∃ kw ∈ location_keywords, strIn kw s) →
        classify_entity s = "LOCATION")
    ∧ (∀ s : String, s ≠ "" → (∀ kw ∈ military_keywords, ¬ strIn kw s) →
        (∀ kw ∈ location_keywords, ¬ strIn kw s) →
        (∃ kw ∈ person_keywords, strIn kw s) →
        classify_entity s = "PERSON")
    ∧ (∀ s : String, s ≠ "" → (∀ kw ∈ military_keywords, ¬ strIn kw s) →
        (∀ kw ∈ location_keywords, ¬ strIn kw s) →
        (∀ kw ∈ person_keywords, ¬ strIn kw s) →
        (∃ kw ∈ org_keywords, strIn kw s) →
        classify_entity s = "ORGANIZATION")
    ∧ (∀ s : String, s ≠ "" →
        (∀ kw ∈ military_keywords ++ location_keywords ++
            person_keywords ++ org_keywords, ¬ strIn kw s) →
        classify_entity s = "ENTITY")
    ∧ (strIn "直升机" "直升机南海" ∧ strIn "南海" "直升机南海" ∧
        "直升机" ∈ military_keywords ∧ "南海" ∈ location_keywords ∧
        classify_entity "直升机南海" = "MILITARY") :=
  ⟨rfl, classify_entity_military, classify_entity_location,
   classify_entity_person, classify_entity_org, classify_entity_generic,
   by decide, by decide, by decide, by decide, by decide⟩

/-- Witness for C6: the military branch applied at the concrete entity
containing both a military and a location keyword. -/
theorem claim_C6_classifier_witness :
    classify_entity "直升机南海" = "MILITARY" :=
  claim_C6_classifier.2.1 "直升机南海" (by decide) ⟨"直升机", by decide, by decide⟩

/-! ### Empty input -/

theorem extract_triples_of_no_sentences (tagger : String → List Token)
    (text : String) (h : preprocess_text text = []) :
    extract_triples tagger text = [] := by
  rw [extract_triples, h]
  simp [post_process, dedupLoop]

/-- C9: the empty input (and any punctuation-only input, whose sentences all
clean and trim to fewer than 4 characters) yields zero sentences from
preprocessing and hence the empty triple list, with no failure (all
functions are total). -/
theorem claim_C9_empty_input :
    (∀ (tagger : String → List Token) (text : String),
      preprocess_text text = [] → extract_triples tagger text = [])
    ∧ preprocess_text "" = []
    ∧ (∀ tagger : String → List Token, extract_triples tagger "" = [])
    ∧ preprocess_text "。。！？；" = []
    ∧ (∀ tagger : String → List Token, extract_triples tagger "。。！？；" = []) :=
  ⟨extract_triples_of_no_sentences,
   by decide,
   fun tagger => extract_triples_of_no_sentences tagger "" (by decide),
   by decide,
   fun tagger => extract_triples_of_no_sentences tagger "。。！？；" (by decide)⟩

/-- Witness for C9: the generic no-sentences fact applied to the trivial
tagger and empty text. -/
theorem claim_C9_empty_input_witness :
    extract_triples (fun _ => ([] : List Token)) "" = [] :=
  claim_C9_empty_input.1 (fun _ => ([] : List Token)) "" (by decide)

example : preprocess_text "" = [] := by decide

end OfflineTripleExtractor
